import Mathlib

/-!
# Verification of the `obsidian_to_jsonld` note compiler

Shallow embedding of the core functions of `obsidian_to_jsonld.py`:
the link index builder (`pass_one_index_uuids`), the section parser
(`parse_sections`), the inline link rewriter (`process_text_links`), the
semantic graph emitter (`generate_skos_json`, `generate_concept_scheme`),
the section renderer (`render_section_to_html`), and the HTML
re-serializer (`prettify_html`, built on Python's `html.parser` event
stream and the `SmartHTMLFormatter` class).

Python strings are modelled as Lean `String`/`List Char` (the notes are
ASCII; `str.lower`, `str.strip` are modelled on that subset).  Python
dicts (which preserve insertion order and overwrite in place) are
modelled as association lists with in-place update (`dictInsert`).
Regular-expression substitution is modelled by explicit left-to-right
scanners that reproduce the matching of the concrete patterns used by
the script (`\[\[(.*?)\]\]`, `(?<!\!)\[([^\]]+)\]\(([^)]+)\)`,
`^#\s+(.*)`, `^[-*+]\s+(.*)`, `\n\s*\n`).
-/

namespace O2J

/-- Python `str` whitespace (the ASCII whitespace characters). -/
def pyIsSpace (c : Char) : Bool :=
  c = ' ' || c = '\t' || c = '\n' || c = '\r' || c = '\x0b' || c = '\x0c'

/-- Python `str.strip()` on a character list. -/
def pyStripL (cs : List Char) : List Char :=
  ((cs.dropWhile pyIsSpace).reverse.dropWhile pyIsSpace).reverse

/-- Python `str.strip()`. -/
def pyStrip (s : String) : String := ⟨pyStripL s.data⟩

/-- Python `str.lower()` (ASCII letters, which is what note titles use). -/
def pyLower (s : String) : String := ⟨s.data.map Char.toLower⟩

/-- Python `str.lstrip(chars)`: drop every leading character that occurs in `set`. -/
def pyLstripSet (set : List Char) (s : String) : String :=
  ⟨s.data.dropWhile (fun c => set.contains c)⟩

/-- Decidable test that `ps` is a prefix of `cs` (decidable, used by the regex scanners). -/
def isPrefixL : List Char → List Char → Bool
  | [], _ => true
  | _ :: _, [] => false
  | p :: ps, c :: cs => p = c && isPrefixL ps cs

/-- Decidable test that `pat` occurs as a contiguous run inside `cs`. -/
def containsSub (pat : List Char) : List Char → Bool
  | [] => pat.isEmpty
  | c :: rest => isPrefixL pat (c :: rest) || containsSub pat rest

/-- Split `cs` at the first occurrence of `pat`: returns the part before the
occurrence and the part after it, or `none` when `pat` does not occur. -/
def splitOnFirst (pat : List Char) : List Char → Option (List Char × List Char)
  | [] => none
  | c :: rest =>
    if isPrefixL pat (c :: rest) then some ([], (c :: rest).drop pat.length)
    else
      match splitOnFirst pat rest with
      | some (a, b) => some (c :: a, b)
      | none => none

/-- Python `content.split('\n')` helper (accumulator holds the current line reversed). -/
def splitNlGo : List Char → List Char → List String
  | cur, [] => [⟨cur.reverse⟩]
  | cur, c :: rest =>
    if c = '\n' then ⟨cur.reverse⟩ :: splitNlGo [] rest else splitNlGo (c :: cur) rest

/-- Python `content.split('\n')`. -/
def pySplitNl (s : String) : List String := splitNlGo [] s.data

/-- Python-dict assignment `d[k] = v` on an (insertion-ordered) association
list: overwrite in place when the key exists, append otherwise. -/
def dictInsert {α : Type} (k : String) (v : α) : List (String × α) → List (String × α)
  | [] => [(k, v)]
  | (k2, v2) :: rest =>
    if k2 = k then (k2, v) :: rest else (k2, v2) :: dictInsert k v rest

/-- Python-dict lookup `d.get(k)` on an association list. -/
def dictGet {α : Type} (k : String) : List (String × α) → Option α
  | [] => none
  | (k2, v2) :: rest => if k2 = k then some v2 else dictGet k rest

/-- Python `d[k].append(v)` for a dict of lists.  The script only appends to a
key it has previously inserted, so the no-key case never arises; it is a no-op. -/
def dictAppend (k : String) (v : String) : List (String × List String) → List (String × List String)
  | [] => []
  | (k2, vs) :: rest =>
    if k2 = k then (k2, vs ++ [v]) :: rest else (k2, vs) :: dictAppend k v rest

/-- The constant `VERSION` from the script configuration. -/
def VERSION : String := "0.0.1"

/-- The constant `DOMAIN` from the script configuration. -/
def DOMAIN : String := "https://vernacular.cloud"

/-! ## Inline link processing (`clean_link_text`, `process_text_links`) -/

/-- The interior of the first `[[...]]` match of `re.search(r'\[\[(.*?)\]\]', text)`:
scan left to right for `[[`; the lazy group stops at the first following `]]`
and `.` cannot cross a newline, so a position whose interior would contain a
newline fails and the scan moves one character to the right. -/
def wikiScan : Nat → List Char → Option (List Char)
  | 0, _ => none
  | _ + 1, [] => none
  | f + 1, c :: rest =>
    if c = '[' && isPrefixL ['['] rest then
      match splitOnFirst [']', ']'] (rest.drop 1) with
      | some (inner, _) =>
        if inner.contains '\n' then wikiScan f rest else some inner
      | none => none
    else wikiScan f rest

/-- Model of `clean_link_text`: the interior of the first `[[Link]]`, or the stripped raw text. -/
def clean_link_text (text : String) : String :=
  match wikiScan (text.length + 1) text.data with
  | some inner => ⟨inner⟩
  | none => pyStrip text

/-- The `target_text, label_text` split of `wiki_link_sub`:
`inner.split('|', 1)` when a `|` is present, otherwise both are `inner`. -/
def wikiSplitBar (inner : String) : String × String :=
  match splitOnFirst ['|'] inner.data with
  | some (a, b) => (⟨a⟩, ⟨b⟩)
  | none => (inner, inner)

/-- The per-match replacement `wiki_link_sub` of `process_text_links`
(the shared `concept_index` dict is abstracted as a lookup function). -/
def wiki_link_sub (idx : String → Option String) (inner : String) : String :=
  let target_text := (wikiSplitBar inner).1
  let label_text := (wikiSplitBar inner).2
  match idx (pyLower (pyStrip target_text)) with
  | some target_uuid =>
    "<a href=\"/" ++ VERSION ++ "/" ++ target_uuid ++ "/\" class=\"internal-link\">"
      ++ label_text ++ "</a>"
  | none => label_text

/-- Whether `wiki_link_sub` resolves its target (and hence emits an anchor). -/
def wikiHit (idx : String → Option String) (inner : String) : Bool :=
  (idx (pyLower (pyStrip (wikiSplitBar inner).1))).isSome

/-- Provenance-tracking output of the wiki-link pass: untouched input
characters (`keep`) and replaced `[[...]]` matches (`subst`, recording the
match interior, the replacement text, and whether the target resolved). -/
inductive WikiPiece
  | keep (cs : List Char)
  | subst (inner : List Char) (out : List Char) (hit : Bool)
deriving DecidableEq, Repr

/-- The scan of `re.sub(r'\[\[(.*?)\]\]', wiki_link_sub, text)`, producing
provenance pieces; fuel exhaustion (never reached from `wikiPieces`) keeps
the remaining input. -/
def wikiGo (idx : String → Option String) : Nat → List Char → List WikiPiece
  | 0, cs => [WikiPiece.keep cs]
  | _ + 1, [] => []
  | f + 1, c :: rest =>
    if c = '[' && isPrefixL ['['] rest then
      match splitOnFirst [']', ']'] (rest.drop 1) with
      | some (inner, after) =>
        if inner.contains '\n' then WikiPiece.keep [c] :: wikiGo idx f rest
        else
          WikiPiece.subst inner (wiki_link_sub idx ⟨inner⟩).data (wikiHit idx ⟨inner⟩)
            :: wikiGo idx f after
      | none => WikiPiece.keep [c] :: wikiGo idx f rest
    else WikiPiece.keep [c] :: wikiGo idx f rest

/-- Pieces of the wiki-link pass over `text`. -/
def wikiPieces (idx : String → Option String) (text : String) : List WikiPiece :=
  wikiGo idx (text.length + 1) text.data

/-- The characters a piece contributes to the output. -/
def wikiPieceStr : WikiPiece → List Char
  | WikiPiece.keep cs => cs
  | WikiPiece.subst _ out _ => out

/-- The wiki-link substitution pass (first pass of `process_text_links`). -/
def wikiSubst (idx : String → Option String) (text : String) : String :=
  ⟨((wikiPieces idx text).map wikiPieceStr).flatten⟩

/-- The anchors inserted by the wiki-link pass (replacements whose target resolved). -/
def wikiAnchors (idx : String → Option String) (text : String) : List String :=
  (wikiPieces idx text).filterMap fun p =>
    match p with
    | WikiPiece.subst _ out true => some ⟨out⟩
    | _ => none

/-- The per-match replacement `md_link_sub` of `process_text_links`. -/
def md_link_sub (label url : String) : String :=
  "<a href=\"" ++ url ++ "\" class=\"external-link\" target=\"_blank\" rel=\"noopener noreferrer\">"
    ++ label ++ "</a>"

/-- Provenance-tracking output of the external-link pass: untouched characters
(`lit`) and rewritten `[label](url)` matches (`rew`, recording the matched
source text). -/
inductive MdPiece
  | lit (cs : List Char)
  | rew (matched : List Char) (label : List Char) (url : List Char)
deriving DecidableEq, Repr

/-- Attempt the match of `\[([^\]]+)\]\(([^)]+)\)` whose `[` has just been
consumed: a nonempty `]`-free label, then `](`, then a nonempty `)`-free url,
then `)`.  Returns the groups and the rest of the input. -/
def mdTry (cs : List Char) : Option (List Char × List Char × List Char) :=
  let label := cs.takeWhile (fun ch => ch != ']')
  if label.isEmpty then none
  else
    match cs.drop label.length with
    | ']' :: '(' :: rest2 =>
      let url := rest2.takeWhile (fun ch => ch != ')')
      if url.isEmpty then none
      else
        match rest2.drop url.length with
        | ')' :: rest3 => some (label, url, rest3)
        | _ => none
    | _ => none

/-- The scan of `re.sub(r'(?<!\!)\[([^\]]+)\]\(([^)]+)\)', md_link_sub, text)`:
`prev` is the previous character (for the `(?<!\!)` lookbehind); fuel
exhaustion (never reached from `mdPieces`) keeps the remaining input. -/
def mdGo : Nat → Option Char → List Char → List MdPiece
  | 0, _, cs => [MdPiece.lit cs]
  | _ + 1, _, [] => []
  | f + 1, prev, c :: rest =>
    if c = '[' && prev != some '!' then
      match mdTry rest with
      | some (label, url, rest3) =>
        MdPiece.rew ('[' :: label ++ ']' :: '(' :: url ++ [')']) label url
          :: mdGo f (some ')') rest3
      | none => MdPiece.lit [c] :: mdGo f (some c) rest
    else MdPiece.lit [c] :: mdGo f (some c) rest

/-- Pieces of the external-link pass over `text`. -/
def mdPieces (text : String) : List MdPiece :=
  mdGo (text.length + 1) none text.data

/-- The characters a piece contributes to the output. -/
def mdPieceStr : MdPiece → List Char
  | MdPiece.lit cs => cs
  | MdPiece.rew _ label url => (md_link_sub ⟨label⟩ ⟨url⟩).data

/-- The external-link substitution pass (second pass of `process_text_links`). -/
def mdSubst (text : String) : String :=
  ⟨((mdPieces text).map mdPieceStr).flatten⟩

/-- The source regions matched (and rewritten) by the external-link pass. -/
def mdMatches (text : String) : List String :=
  (mdPieces text).filterMap fun p =>
    match p with
    | MdPiece.rew m _ _ => some ⟨m⟩
    | _ => none

/-- Model of `process_text_links`: wiki-link substitution, then external-link substitution. -/
def process_text_links (idx : String → Option String) (text : String) : String :=
  mdSubst (wikiSubst idx text)

/-! ## Section parsing (`parse_sections`) -/

/-- Model of `re.match(r'^#\s+(.*)', line)` followed by `.strip()` of the group:
a single `#`, at least one whitespace character, then the rest, trimmed.
(A `##` line does not match: its second character is not whitespace.) -/
def headerMatch (line : String) : Option String :=
  match line.data with
  | '#' :: c :: rest =>
    if pyIsSpace c then some (pyStrip ⟨(c :: rest).dropWhile pyIsSpace⟩) else none
  | _ => none

/-- The line-folding loop of `parse_sections`.  The guard on a non-heading
line is Python's `elif current_header:`, which tests *string truthiness*:
`None` (no heading seen yet) and the empty string (a heading whose text
strips to empty, e.g. `"# "`) are both falsy, so their lines are
discarded. -/
def parseGo : List String → Option String → List (String × List String) → List (String × List String)
  | [], _, sections => sections
  | line :: rest, current, sections =>
    match headerMatch line with
    | some h => parseGo rest (some h) (dictInsert h [] sections)
    | none =>
      match current with
      | some h =>
        if h = "" then parseGo rest current sections
        else if pyStrip line = "" then parseGo rest current sections
        else parseGo rest current (dictAppend h (pyStrip line) sections)
      | none => parseGo rest current sections

/-- Model of `parse_sections`: split the note body at H1 headers into an
insertion-ordered mapping from header text to stripped non-blank lines. -/
def parse_sections (content : String) : List (String × List String) :=
  parseGo (pySplitNl content) none []

/-- A line is not a single-level heading. -/
def noHeader (l : String) : Bool := (headerMatch l).isNone

/-- The non-blank lines of a section body, each trimmed (as the script stores them). -/
def keptLines (ls : List String) : List String :=
  ls.filterMap fun l => if pyStrip l = "" then none else some (pyStrip l)

/-- Specification-side reading of the section-parser contract: the list of
(heading, body) segments in order of appearance, where a segment's body is
the run of lines up to the next single-level heading, blank lines removed
and each line trimmed (the trimming is the amendment forced by the code).
A heading whose text strips to empty still creates its entry, but its body
is empty: the empty current-header string is falsy in Python, so the lines
that follow it are discarded. -/
def specSegments : List String → List (String × List String)
  | [] => []
  | l :: ls =>
    match headerMatch l with
    | some h =>
      (h, if h = "" then [] else keptLines (ls.takeWhile noHeader))
        :: specSegments (ls.dropWhile noHeader)
    | none => specSegments ls
termination_by l => l.length
decreasing_by
  · simp only [List.length_cons]
    exact Nat.lt_succ_of_le (List.dropWhile_sublist noHeader).length_le
  · simp

/-- Specification-side section mapping: fold the segments into an ordered
dict, so a repeated heading keeps its first position but its last body. -/
def specParseSections (content : String) : List (String × List String) :=
  (specSegments (pySplitNl content)).foldl (fun d hb => dictInsert hb.1 hb.2 d) []

/-! ## Graph emission (`generate_skos_json`) -/

/-- JSON values occurring in the emitted graph node. -/
inductive JVal
  | s (str : String)
  | l (list : List String)
  | obj (fields : List (String × String))
deriving DecidableEq, Repr

/-- The `HEADER_TO_SKOS` mapping table. -/
def HEADER_TO_SKOS (h : String) : Option String :=
  if h = "Definition" then some "skos:definition"
  else if h = "Broader" then some "skos:broader"
  else if h = "Narrower" then some "skos:narrower"
  else if h = "Related" then some "skos:related"
  else if h = "Alternative Label" then some "skos:altLabel"
  else if h = "Editorial Note" then some "skos:editorialNote"
  else if h = "History Note" then some "skos:historyNote"
  else if h = "Scope Note" then some "skos:scopeNote"
  else if h = "Example" then some "skos:example"
  else none

/-- The inverse of the `HEADER_TO_SKOS` table (the table is injective);
auxiliary for the emitter proofs. -/
def SKOS_TO_HEADER (p : String) : Option String :=
  if p = "skos:definition" then some "Definition"
  else if p = "skos:broader" then some "Broader"
  else if p = "skos:narrower" then some "Narrower"
  else if p = "skos:related" then some "Related"
  else if p = "skos:altLabel" then some "Alternative Label"
  else if p = "skos:editorialNote" then some "Editorial Note"
  else if p = "skos:historyNote" then some "History Note"
  else if p = "skos:scopeNote" then some "Scope Note"
  else if p = "skos:example" then some "Example"
  else none

/-- Resolution of one relation line: `concept_index.get(clean_link_text(line).lower())`,
mapped to the concept URI on a hit. -/
def relLineUri (idx : String → Option String) (line : String) : Option String :=
  (idx (pyLower (clean_link_text line))).map fun target_uuid =>
    DOMAIN ++ "/" ++ VERSION ++ "/" ++ target_uuid ++ "/"

/-- The cleaning applied to one `Alternative Label` line:
`line.lstrip('- ').strip()`. -/
def altLabelClean (line : String) : String :=
  pyStrip (pyLstripSet ['-', ' '] line)

/-- The cleaning the specification describes for an `Alternative Label`
line: one leading bullet marker (any of `-`, `*`, `+`) stripped, the
remainder trimmed.  Kept for comparison with `altLabelClean`. -/
def specBulletStrip (line : String) : String :=
  match line.data with
  | c :: rest => if c = '-' || c = '*' || c = '+' then pyStrip ⟨rest⟩ else pyStrip line
  | [] => ""

/-- The per-section update step of `generate_skos_json`. -/
def skosStep (idx : String → Option String) (json_ld : List (String × JVal))
    (hl : String × List String) : List (String × JVal) :=
  let header := hl.1
  let lines := hl.2
  match HEADER_TO_SKOS header with
  | none => json_ld
  | some skos_prop =>
    if lines = [] then json_ld
    else if header ∈ ["Broader", "Narrower", "Related"] then
      let uris := lines.filterMap (relLineUri idx)
      if uris = [] then json_ld
      else dictInsert skos_prop (if uris.length > 1 then JVal.l uris else JVal.s (uris.headD "")) json_ld
    else if header = "Alternative Label" then
      dictInsert skos_prop (JVal.l (lines.map altLabelClean)) json_ld
    else dictInsert skos_prop (JVal.s (String.intercalate " " lines)) json_ld

/-- The fixed fields every emitted graph node starts from. -/
def skosBase (uuid title : String) : List (String × JVal) :=
  [("@context", JVal.obj [("skos", "http://www.w3.org/2004/02/skos/core#"),
                          ("dct", "http://purl.org/dc/terms/")]),
   ("@id", JVal.s (DOMAIN ++ "/" ++ VERSION ++ "/" ++ uuid ++ "/")),
   ("@type", JVal.s "skos:Concept"),
   ("skos:prefLabel", JVal.s title),
   ("skos:inScheme", JVal.s (DOMAIN ++ "/" ++ VERSION ++ "/concept-scheme/"))]

/-- Model of `generate_skos_json`: the per-note graph node as an ordered field list. -/
def generate_skos_json (idx : String → Option String) (uuid title : String)
    (sections : List (String × List String)) : List (String × JVal) :=
  sections.foldl (skosStep idx) (skosBase uuid title)

/-! ## Section rendering (`render_section_to_html`) -/

/-- Model of `re.match(r'^[-*+]\s+(.*)', stripped)`: a bullet marker, at least one
whitespace character, then the content (everything after the greedy `\s+`). -/
def bulletMatch (s : String) : Option String :=
  match s.data with
  | c :: d :: rest =>
    if (c = '-' || c = '*' || c = '+') && pyIsSpace d
    then some ⟨(d :: rest).dropWhile pyIsSpace⟩ else none
  | _ => none

/-- The line-folding loop of `render_section_to_html` (`inList` is `in_list`). -/
def renderGo (idx : String → Option String) : List String → Bool → List String
  | [], inList => if inList then ["</ul>"] else []
  | line :: rest, inList =>
    let stripped := pyStrip line
    if stripped = "" then renderGo idx rest inList
    else
      match bulletMatch stripped with
      | some raw_content =>
        (if inList then [] else ["<ul>"])
          ++ ("<li>" ++ process_text_links idx raw_content ++ "</li>") :: renderGo idx rest true
      | none =>
        if stripped.startsWith "##" then
          (if inList then ["</ul>"] else [])
            ++ ("<h3>" ++ process_text_links idx (pyStrip (pyLstripSet ['#'] stripped)) ++ "</h3>")
              :: renderGo idx rest false
        else
          (if inList then ["</ul>"] else [])
            ++ ("<p>" ++ process_text_links idx stripped ++ "</p>") :: renderGo idx rest false

/-- Model of `render_section_to_html` (the shared index again abstracted as a function). -/
def render_section_to_html (idx : String → Option String) (lines : List String) : String :=
  String.intercalate "\n" (renderGo idx lines false)

/-- Classification of one non-blank stripped line, mirroring the branch order
of the renderer: bullet item, then `##` sub-heading, then paragraph. -/
inductive LineElem
  | bullet (content : String)
  | subhead (content : String)
  | para (content : String)
deriving DecidableEq, Repr

/-- Classify a non-blank stripped line. -/
def classifyStripped (s : String) : LineElem :=
  match bulletMatch s with
  | some c => LineElem.bullet c
  | none =>
    if s.startsWith "##" then LineElem.subhead (pyStrip (pyLstripSet ['#'] s))
    else LineElem.para s

/-- The classified sequence of a section's non-blank lines (blank lines are
skipped by the renderer without any effect). -/
def sectionElems (lines : List String) : List LineElem :=
  lines.filterMap fun l =>
    let s := pyStrip l
    if s = "" then none else some (classifyStripped s)

/-- Is the element a bullet item? -/
def isBulletElem : LineElem → Bool
  | LineElem.bullet _ => true
  | _ => false

/-- The rendered form of a bullet item. -/
def itemHtml (idx : String → Option String) : LineElem → String
  | LineElem.bullet c => "<li>" ++ process_text_links idx c ++ "</li>"
  | LineElem.subhead c => "<h3>" ++ process_text_links idx c ++ "</h3>"
  | LineElem.para c => "<p>" ++ process_text_links idx c ++ "</p>"

/-- Specification-side reading of the renderer contract: each maximal run of
consecutive bullet-classified lines becomes exactly one `<ul>` container with
one `<li>` per line in input order, closed before the next non-bullet
element or at the end; non-bullet lines render on their own. -/
def specRender (idx : String → Option String) : List LineElem → List String
  | [] => []
  | e :: es =>
    if isBulletElem e then
      ("<ul>" :: ((e :: es).takeWhile isBulletElem).map (itemHtml idx))
        ++ "</ul>" :: specRender idx ((e :: es).dropWhile isBulletElem)
    else itemHtml idx e :: specRender idx es
termination_by l => l.length
decreasing_by
  · have h2 : (e :: es).dropWhile isBulletElem = es.dropWhile isBulletElem := by
      simp [List.dropWhile_cons, *]
    simp only [List.length_cons]
    exact Nat.lt_succ_of_le (h2 ▸ (List.dropWhile_sublist isBulletElem).length_le)
  · simp

/-! ## Concept scheme (`generate_concept_scheme`) -/

/-- A Python front-matter value as the script meets it: missing (`None`),
a YAML boolean, or a string. -/
inductive PyVal
  | pnone
  | pbool (b : Bool)
  | pstr (s : String)
deriving DecidableEq, Repr

/-- Python `str(v)` for those values. -/
def pyValStr : PyVal → String
  | PyVal.pnone => "None"
  | PyVal.pbool true => "True"
  | PyVal.pbool false => "False"
  | PyVal.pstr s => s

/-- Python truthiness for those values. -/
def pyTruthy : PyVal → Bool
  | PyVal.pnone => false
  | PyVal.pbool b => b
  | PyVal.pstr s => s != ""

/-- The per-note data `generate_concept_scheme` consumes: filename,
`top-concept` front-matter value, `concept-key` front-matter value. -/
structure ConceptData where
  filename : String
  topConcept : PyVal
  conceptKey : PyVal
deriving DecidableEq, Repr

/-- The `top-concept` test: `str(fm.get('top-concept')).lower() == 'true'`. -/
def topFlagSet (c : ConceptData) : Bool :=
  pyLower (pyValStr c.topConcept) = "true"

/-- The URI built for a top concept. -/
def topUri (version : String) (c : ConceptData) : String :=
  "https://vernacular.cloud/" ++ version ++ "/" ++ pyValStr c.conceptKey ++ "/"

/-- One iteration of the collection loop of `generate_concept_scheme`: the
accumulator carries the `@id` values of `jsonld_links` (the scheme's
`skos:hasTopConcept` list) and the filenames warned about (flag set but no
truthy `concept-key`). -/
def schemeStep (version : String) (acc : List String × List String) (concept : ConceptData) :
    List String × List String :=
  if topFlagSet concept then
    if pyTruthy concept.conceptKey then (acc.1 ++ [topUri version concept], acc.2)
    else (acc.1, acc.2 ++ [concept.filename])
  else acc

/-- The collection loop of `generate_concept_scheme` (see `schemeStep`). -/
def generate_concept_scheme (version : String) (all_concepts : List ConceptData) :
    List String × List String :=
  all_concepts.foldl (schemeStep version) ([], [])

/-! ## Link index (`pass_one_index_uuids`) -/

/-- What phase 1 reads from one note file: the filename stem and the
`concept-key` front-matter value (absent, or a string that may be empty). -/
structure NoteFile where
  stem : String
  conceptKey : Option String
deriving DecidableEq, Repr

/-- One iteration of the scan loop of `pass_one_index_uuids`: a note whose
`concept-key` is truthy (a non-empty string) inserts `stem.lower() -> uuid`
into the shared dict. -/
def idxStep (idx : List (String × String)) (n : NoteFile) : List (String × String) :=
  match n.conceptKey with
  | some uuid => if uuid != "" then dictInsert (pyLower n.stem) uuid idx else idx
  | none => idx

/-- Model of `pass_one_index_uuids` (see `idxStep`), in scan order. -/
def pass_one_index_uuids (files : List NoteFile) : List (String × String) :=
  files.foldl idxStep []

/-- A sample link index used by the concrete evaluations below. -/
def sampleIndex : String → Option String :=
  fun s => if s = "t" then some "u" else none

/-- Auxiliary for the section-parser refinement proof: append a whole list of
lines to the section of `h`. -/
def appendAll (h : String) (xs : List String) (d : List (String × List String)) :
    List (String × List String) :=
  xs.foldl (fun d2 x => dictAppend h x d2) d

/-! ## HTML re-serialization (`SmartHTMLFormatter`, `prettify_html`)

`prettify_html` feeds the markup to Python's `html.parser.HTMLParser`
(`convert_charrefs=True`, and `close()` is never called), collects the
`SmartHTMLFormatter` output, and collapses blank-line runs.  The tokenizer
below models the parser's `goahead`/`parse_starttag`/`parse_endtag` loop for
the constructs the pipeline produces: text (with named character references
unescaped once per pass), start/end/self-closing tags with attributes,
comments, declarations and processing instructions.  Not modelled (unused by
the theorems): numeric character references, CDATA content mode for
`script`/`style`, and the full tolerant-attribute junk recovery. -/

/-- A character that can be part of a named character reference
(the class `[^\t\n\f <&#;]` of Python's `html._charref`). -/
def entChar (c : Char) : Bool :=
  !(c = '\t' || c = '\n' || c = '\x0c' || c = ' ' || c = '<' || c = '&' || c = '#' || c = ';')

/-- The named references relevant here, from Python's `html5` table
(the legacy entities also appear without their semicolon). -/
def entTable : List (List Char × List Char) :=
  [("amp;".data, "&".data), ("amp".data, "&".data),
   ("lt;".data, "<".data), ("lt".data, "<".data),
   ("gt;".data, ">".data), ("gt".data, ">".data),
   ("quot;".data, "\"".data), ("quot".data, "\"".data),
   ("apos;".data, "'".data)]

/-- Exact lookup in the entity table. -/
def entLookup (grp : List Char) : Option (List Char) :=
  (entTable.find? (fun kv => kv.1 == grp)).map (fun kv => kv.2)

/-- The longest-matching-name fallback of `html._replace_charref`: try
prefixes of decreasing length (down to 2); with no match the reference
text is kept verbatim. -/
def entBackoffGo (grp : List Char) : Nat → List Char
  | 0 => '&' :: grp
  | 1 => '&' :: grp
  | x + 2 =>
    match entLookup (grp.take (x + 2)) with
    | some r => r ++ grp.drop (x + 2)
    | none => entBackoffGo grp (x + 1)

/-- Replace one matched named reference group (`html._replace_charref`). -/
def entResolve (grp : List Char) : List Char :=
  match entLookup grp with
  | some r => r
  | none => entBackoffGo grp (grp.length - 1)

/-- Model of `html.unescape` restricted to named references: each `&` followed by a
nonempty run (at most 32 characters) of name characters and an optional `;`
is one match of `_charref`, replaced by `entResolve`. -/
def unescapeGo : Nat → List Char → List Char
  | 0, cs => cs
  | _ + 1, [] => []
  | f + 1, c :: rest =>
    if c = '&' then
      let run := (rest.takeWhile entChar).take 32
      if run.isEmpty then '&' :: unescapeGo f rest
      else
        let afterRun := rest.drop run.length
        if isPrefixL [';'] afterRun then
          entResolve (run ++ [';']) ++ unescapeGo f (afterRun.drop 1)
        else entResolve run ++ unescapeGo f afterRun
    else c :: unescapeGo f rest

/-- Model of `html.unescape` (named references). -/
def pyUnescape (cs : List Char) : List Char := unescapeGo (cs.length + 1) cs

/-- Parser events delivered to the formatter (a self-closing tag delivers
`tagOpen` then `tagClose`, as the default `handle_startendtag` does). -/
inductive HEv
  | data (s : String)
  | tagOpen (tag : String) (attrs : List (String × Option String))
  | tagClose (tag : String)
  | decl (s : String)
  | comment (s : String)
deriving DecidableEq, Repr

/-- A character allowed inside a tag name (`tagfind_tolerant` after the
leading letter: anything but whitespace, `/`, `>` and NUL). -/
def tagNameChar (c : Char) : Bool :=
  !(c = '\t' || c = '\n' || c = '\r' || c = '\x0c' || c = ' ' || c = '/' || c = '>' || c = '\x00')

/-- A character allowed in an attribute name. -/
def attrNameChar (c : Char) : Bool :=
  !(pyIsSpace c || c = '/' || c = '>' || c = '=')

/-- A character allowed in an unquoted attribute value. -/
def attrBareChar (c : Char) : Bool :=
  !(pyIsSpace c || c = '>')

/-- The attribute loop of `parse_starttag`: skip whitespace and stray `/`,
read `name[=value]` pairs (names lower-cased, values unescaped), stop at `>`
or `/>`.  `none` means the closing `>` is missing: the tag stays buffered by
`feed` and, `close()` never being called, is dropped. -/
def parseAttrsGo : Nat → List Char → List (String × Option String) →
    Option (List (String × Option String) × Bool × List Char)
  | 0, _, _ => none
  | f + 1, cs, acc =>
    match cs.dropWhile pyIsSpace with
    | [] => none
    | '>' :: rest => some (acc.reverse, false, rest)
    | '/' :: '>' :: rest => some (acc.reverse, true, rest)
    | '/' :: rest => parseAttrsGo f rest acc
    | c :: rest =>
      let cs2 := c :: rest
      let name := cs2.takeWhile attrNameChar
      if name.isEmpty then parseAttrsGo f rest acc
      else
        let lname : String := ⟨name.map Char.toLower⟩
        match (cs2.drop name.length).dropWhile pyIsSpace with
        | '=' :: rest2 =>
          match (rest2.dropWhile (fun ch => ch = '=')).dropWhile pyIsSpace with
          | '"' :: more =>
            let v := more.takeWhile (fun ch => ch != '"')
            (match more.drop v.length with
             | '"' :: rest3 => parseAttrsGo f rest3 ((lname, some ⟨pyUnescape v⟩) :: acc)
             | _ => none)
          | '\'' :: more =>
            let v := more.takeWhile (fun ch => ch != '\'')
            (match more.drop v.length with
             | '\'' :: rest3 => parseAttrsGo f rest3 ((lname, some ⟨pyUnescape v⟩) :: acc)
             | _ => none)
          | rest2b =>
            let v := rest2b.takeWhile attrBareChar
            parseAttrsGo f (rest2b.drop v.length) ((lname, some ⟨pyUnescape v⟩) :: acc)
        | rest1 => parseAttrsGo f rest1 ((lname, none) :: acc)

/-- Model of `parse_endtag` for a well-formed `</name ... >` (input starts after `</`). -/
def parseEndTag (cs : List Char) : Option (String × List Char) :=
  let cs1 := cs.dropWhile pyIsSpace
  let name := cs1.takeWhile tagNameChar
  let lname : String := ⟨name.map Char.toLower⟩
  match (cs1.drop name.length).dropWhile pyIsSpace with
  | '>' :: rest2 => some (lname, rest2)
  | _ => (splitOnFirst ['>'] cs).map fun ab => (lname, ab.2)

/-- Was the trailing text (no `<` follows) held back by `feed`?  `goahead`
keeps it when an `&` in the final 34 characters is not followed by any
whitespace or `;` - a possibly split character reference.  `close()` is never
called, so held-back text is dropped. -/
def ampHoldback (pre : List Char) : Bool :=
  let tail := pre.drop (pre.length - 34)
  let revT := tail.reverse
  let afterAmpRev := revT.takeWhile (fun ch => ch != '&')
  if afterAmpRev.length = revT.length then false
  else !(afterAmpRev.any (fun ch => pyIsSpace ch || ch = ';'))

mutual

/-- The `goahead` loop of `HTMLParser.feed` (`convert_charrefs=True`): text up
to the next `<` is flushed through `unescape`; trailing text is subject to the
`&` hold-back; constructs after `<` are handled by `tokTag`. -/
def tokenizeGo : Nat → List Char → List HEv
  | 0, _ => []
  | f + 1, cs =>
    let pre := cs.takeWhile (fun ch => ch != '<')
    match cs.drop pre.length with
    | [] =>
      if pre.isEmpty then []
      else if ampHoldback pre then [] else [HEv.data ⟨pyUnescape pre⟩]
    | _ :: rest =>
      (if pre.isEmpty then [] else [HEv.data ⟨pyUnescape pre⟩]) ++ tokTag f rest

/-- Dispatch on the character after `<`: end tag, comment, declaration,
processing instruction (no event), start tag, or a literal `<` as data.
An unterminated construct is buffered by `feed` and dropped. -/
def tokTag : Nat → List Char → List HEv
  | 0, _ => []
  | f + 1, rest =>
    match rest with
    | [] => []
    | '/' :: rest2 =>
      (match parseEndTag rest2 with
       | some (name, rest3) => HEv.tagClose name :: tokenizeGo f rest3
       | none => [])
    | '!' :: '-' :: '-' :: rest2 =>
      (match splitOnFirst ['-', '-', '>'] rest2 with
       | some (body, rest3) => HEv.comment ⟨body⟩ :: tokenizeGo f rest3
       | none => [])
    | '!' :: rest2 =>
      (match splitOnFirst ['>'] rest2 with
       | some (body, rest3) => HEv.decl ⟨body⟩ :: tokenizeGo f rest3
       | none => [])
    | '?' :: rest2 =>
      (match splitOnFirst ['>'] rest2 with
       | some (_, rest3) => tokenizeGo f rest3
       | none => [])
    | c :: rest2 =>
      if c.isAlpha then
        let name := (c :: rest2).takeWhile tagNameChar
        match parseAttrsGo (rest2.length + 1) ((c :: rest2).drop name.length) [] with
        | some (attrs, selfClosing, rest3) =>
          let tag : String := ⟨name.map Char.toLower⟩
          if selfClosing then HEv.tagOpen tag attrs :: HEv.tagClose tag :: tokenizeGo f rest3
          else HEv.tagOpen tag attrs :: tokenizeGo f rest3
        | none => []
      else HEv.data "<" :: tokenizeGo f (c :: rest2)

end

/-- Tokenize one `feed` of the whole document (fuel covers the worst case of
one `tokenizeGo`/`tokTag` round per input character). -/
def tokenize (html_content : String) : List HEv :=
  tokenizeGo (2 * html_content.length + 2) html_content.data

/-- Model of `structural_tags` of `SmartHTMLFormatter`. -/
def structural_tags : List String :=
  ["html", "head", "body", "header", "footer", "main", "aside",
   "section", "div", "ul", "ol", "script", "style", "meta", "link"]

/-- Model of `content_tags` of `SmartHTMLFormatter`. -/
def content_tags : List String :=
  ["h1", "h2", "h3", "h4", "h5", "h6", "p", "li", "title", "blockquote", "small"]

/-- Model of `void_tags` of `SmartHTMLFormatter`. -/
def void_tags : List String :=
  ["meta", "link", "img", "br", "hr", "input"]

/-- The mutable state of `SmartHTMLFormatter` (`indent_width` is 2). -/
structure FmtState where
  level : Int
  formatted : List String
  justOpened : Bool
deriving DecidableEq, Repr

/-- The fresh formatter state. -/
def initFmtState : FmtState := ⟨0, [], false⟩

/-- Model of `self.formatted[-1].endswith('\n')` (false on an empty list). -/
def lastEndsNewline (parts : List String) : Bool :=
  match parts.getLast? with
  | some s => s.endsWith "\n"
  | none => false

/-- Model of `_add_newline_if_needed`. -/
def addNewlineIfNeeded (st : FmtState) : FmtState :=
  if !st.formatted.isEmpty && !lastEndsNewline st.formatted
  then { st with formatted := st.formatted ++ ["\n"] } else st

/-- Model of `' ' * (level * indent_width)` (a negative level yields the empty string). -/
def indentStr (level : Int) : String :=
  ⟨List.replicate ((max level 0).toNat * 2) ' '⟩

/-- Model of `_indent`. -/
def pushIndent (st : FmtState) : FmtState :=
  { st with formatted := st.formatted ++ [indentStr st.level] }

/-- The attribute serialization `f' {k}="{v}"' if v else f' {k}'`
(both a missing and an empty value render bare). -/
def attrString (attrs : List (String × Option String)) : String :=
  String.join (attrs.map fun kv =>
    match kv.2 with
    | some v => if v ≠ "" then " " ++ kv.1 ++ "=\"" ++ v ++ "\"" else " " ++ kv.1
    | none => " " ++ kv.1)

/-- Model of `handle_starttag`. -/
def fmt_handle_starttag (st : FmtState) (tag : String)
    (attrs : List (String × Option String)) : FmtState :=
  if structural_tags.contains tag then
    let st1 := pushIndent (addNewlineIfNeeded st)
    let st2 := { st1 with formatted := st1.formatted ++ ["<" ++ tag ++ attrString attrs ++ ">"] }
    if !void_tags.contains tag then
      { st2 with level := st2.level + 1, justOpened := true }
    else st2
  else if content_tags.contains tag then
    let st1 := pushIndent (addNewlineIfNeeded st)
    { st1 with formatted := st1.formatted ++ ["<" ++ tag ++ attrString attrs ++ ">"],
               justOpened := true }
  else
    { st with formatted := st.formatted ++ ["<" ++ tag ++ attrString attrs ++ ">"],
              justOpened := false }

/-- Model of `handle_endtag`. -/
def fmt_handle_endtag (st : FmtState) (tag : String) : FmtState :=
  if structural_tags.contains tag then
    let st1 :=
      if !void_tags.contains tag then
        pushIndent (addNewlineIfNeeded { st with level := st.level - 1 })
      else st
    { st1 with formatted := st1.formatted ++ ["</" ++ tag ++ ">"], justOpened := false }
  else if content_tags.contains tag then
    let st1 :=
      if !st.formatted.isEmpty && lastEndsNewline st.formatted then pushIndent st else st
    { st1 with formatted := st1.formatted ++ ["</" ++ tag ++ ">"], justOpened := false }
  else { st with formatted := st.formatted ++ ["</" ++ tag ++ ">"] }

/-- Model of `handle_data`: whitespace-only data is discarded, other data is appended
verbatim. -/
def fmt_handle_data (st : FmtState) (data : String) : FmtState :=
  if pyStrip data = "" then st
  else { st with formatted := st.formatted ++ [data], justOpened := false }

/-- Model of `handle_decl`: `f"<!{decl}>\n"`. -/
def fmt_handle_decl (st : FmtState) (d : String) : FmtState :=
  { st with formatted := st.formatted ++ ["<!" ++ d ++ ">\n"] }

/-- Model of `handle_comment`: a newline, indentation, and an empty placeholder
(the comment body is not preserved). -/
def fmt_handle_comment (st : FmtState) : FmtState :=
  let st1 := pushIndent (addNewlineIfNeeded st)
  { st1 with formatted := st1.formatted ++ [""] }

/-- Dispatch one parser event to the formatter. -/
def fmtStep (st : FmtState) : HEv → FmtState
  | HEv.data s => fmt_handle_data st s
  | HEv.tagOpen t a => fmt_handle_starttag st t a
  | HEv.tagClose t => fmt_handle_endtag st t
  | HEv.decl s => fmt_handle_decl st s
  | HEv.comment _ => fmt_handle_comment st

/-- The scan of `re.sub(r'\n\s*\n', '\n', output)`: at a newline, the greedy
`\s*` extends through the whitespace run and backtracks to its last newline;
with a second newline present the whole stretch collapses to one `\n` and the
scan resumes after it. -/
def collapseGo : Nat → List Char → List Char
  | 0, cs => cs
  | _ + 1, [] => []
  | f + 1, c :: rest =>
    if c = '\n' then
      let run := rest.takeWhile pyIsSpace
      let afterNlRev := run.reverse.takeWhile (fun ch => ch != '\n')
      if afterNlRev.length = run.length then '\n' :: collapseGo f rest
      else '\n' :: collapseGo f (rest.drop (run.length - afterNlRev.length))
    else c :: collapseGo f rest

/-- Model of `re.sub(r'\n\s*\n', '\n', s)`. -/
def collapseBlank (s : String) : String := ⟨collapseGo (s.length + 1) s.data⟩

/-- Model of `prettify_html`: feed, join the formatter output, collapse blank lines. -/
def prettify_html (html_content : String) : String :=
  let final := (tokenize html_content).foldl fmtStep initFmtState
  collapseBlank (String.join final.formatted)

/-! ## Dictionary lemmas -/

theorem dictGet_dictInsert {α : Type} (t k : String) (v : α) (d : List (String × α)) :
    dictGet t (dictInsert k v d) = if t = k then some v else dictGet t d := by
  induction d with
  | nil =>
    by_cases h : t = k
    · subst h; simp [dictInsert, dictGet]
    · have h2 : ¬ k = t := fun h3 => h h3.symm
      simp [dictInsert, dictGet, h, h2]
  | cons hd tl ih =>
    obtain ⟨k2, v2⟩ := hd
    by_cases h1 : k2 = k
    · subst h1
      by_cases h2 : t = k2
      · subst h2; simp [dictInsert, dictGet]
      · have h2s : ¬ k2 = t := fun h3 => h2 h3.symm
        simp [dictInsert, dictGet, h2, h2s]
    · by_cases h2 : k2 = t
      · subst h2
        have ht : ¬ k2 = k := h1
        simp [dictInsert, dictGet, h1, ht]
      · simp [dictInsert, dictGet, h1, h2, ih]

theorem mem_keys_dictInsert_iff {α : Type} (t k : String) (v : α) (d : List (String × α)) :
    t ∈ (dictInsert k v d).map Prod.fst ↔ t = k ∨ t ∈ d.map Prod.fst := by
  induction d with
  | nil => simp [dictInsert]
  | cons hd tl ih =>
    obtain ⟨k2, v2⟩ := hd
    by_cases h1 : k2 = k
    · subst h1
      have hins : dictInsert k2 v ((k2, v2) :: tl) = (k2, v) :: tl := by
        simp [dictInsert]
      rw [hins]
      simp only [List.map_cons, List.mem_cons]
      tauto
    · have hins : dictInsert k v ((k2, v2) :: tl) = (k2, v2) :: dictInsert k v tl := by
        simp [dictInsert, h1]
      rw [hins]
      simp only [List.map_cons, List.mem_cons, ih]
      tauto

theorem keys_nodup_dictInsert {α : Type} (k : String) (v : α) (d : List (String × α))
    (h : (d.map Prod.fst).Nodup) : ((dictInsert k v d).map Prod.fst).Nodup := by
  induction d with
  | nil => simp [dictInsert]
  | cons hd tl ih =>
    obtain ⟨k2, v2⟩ := hd
    simp only [List.map_cons, List.nodup_cons] at h
    by_cases h1 : k2 = k
    · subst h1; simpa [dictInsert] using h
    · simp only [dictInsert, h1, if_false, List.map_cons, List.nodup_cons]
      refine ⟨fun hmem => ?_, ih h.2⟩
      rcases (mem_keys_dictInsert_iff k2 k v tl).1 hmem with h2 | h2
      · exact h1 h2
      · exact h.1 h2

/-! ## C2: the HTML re-serializer is not idempotent on every markup string -/

/-- Claim C2 (`code_bug` evidence).  The spec guarantees
`prettify_html (prettify_html x) = prettify_html x` for every markup string,
but each pass re-tokenizes its own output with `convert_charrefs=True`, so a
character reference in text is unescaped once per pass: on
`"&amp;amp;<br>"` the first pass yields `"&amp;<br>"` and the second pass
yields `"&<br>"`, so running the re-serializer twice differs from running it
once. -/
theorem prettify_html_not_idempotent_on_charref :
    prettify_html "&amp;amp;<br>" = "&amp;<br>" ∧
    prettify_html (prettify_html "&amp;amp;<br>") = "&<br>" ∧
    prettify_html (prettify_html "&amp;amp;<br>") ≠ prettify_html "&amp;amp;<br>" := by
  refine ⟨by decide, by decide, by decide⟩

/-! ## C5: the link index after phase 1 -/

theorem idxStep_eq (acc : List (String × String)) (n : NoteFile) :
    idxStep acc n =
      match n.conceptKey with
      | some uuid => if uuid != "" then dictInsert (pyLower n.stem) uuid acc else acc
      | none => acc := rfl

theorem keys_nodup_foldl_idxStep (files : List NoteFile) :
    ∀ acc : List (String × String), (acc.map Prod.fst).Nodup →
      ((files.foldl idxStep acc).map Prod.fst).Nodup := by
  induction files with
  | nil => intro acc h; simpa using h
  | cons n files ih =>
    intro acc h
    simp only [List.foldl_cons]
    apply ih
    rcases hc : n.conceptKey with _ | uuid
    · simpa only [idxStep_eq, hc] using h
    · by_cases hu : uuid != ""
      · simp only [idxStep_eq, hc, hu, if_true]
        exact keys_nodup_dictInsert _ _ _ h
      · simpa only [idxStep_eq, hc, hu, if_false] using h

theorem mem_keys_foldl_idxStep (files : List NoteFile) :
    ∀ (acc : List (String × String)) (t : String), t ∈ acc.map Prod.fst →
      t ∈ (files.foldl idxStep acc).map Prod.fst := by
  induction files with
  | nil => intro acc t h; simpa using h
  | cons n files ih =>
    intro acc t h
    simp only [List.foldl_cons]
    apply ih
    rcases hc : n.conceptKey with _ | uuid
    · simpa only [idxStep_eq, hc] using h
    · by_cases hu : uuid != ""
      · simp only [idxStep_eq, hc, hu, if_true]
        exact (mem_keys_dictInsert_iff t _ _ acc).2 (Or.inr h)
      · simpa only [idxStep_eq, hc, hu, if_false] using h

theorem mem_keys_of_truthy_note (files : List NoteFile) :
    ∀ (acc : List (String × String)), ∀ n ∈ files, ∀ uuid, n.conceptKey = some uuid → uuid ≠ "" →
      pyLower n.stem ∈ (files.foldl idxStep acc).map Prod.fst := by
  induction files with
  | nil => intro acc n hn; simp at hn
  | cons m files ih =>
    intro acc n hn uuid hkey hne
    rcases List.mem_cons.1 hn with h | h
    · subst h
      simp only [List.foldl_cons]
      apply mem_keys_foldl_idxStep
      have hu : uuid != "" := by simpa using hne
      simp only [idxStep_eq, hkey, hu, if_true]
      exact (mem_keys_dictInsert_iff _ _ _ acc).2 (Or.inl rfl)
    · simp only [List.foldl_cons]
      exact ih (idxStep acc m) n h uuid hkey hne

/-- The Boolean filter of the last-wins description: the note has a truthy
`concept-key` and its lower-cased stem is the queried title. -/
def idxFilterPred (t : String) (n : NoteFile) : Bool :=
  (match n.conceptKey with
   | some uuid => uuid != ""
   | none => false) && (pyLower n.stem == t)

theorem dictGet_pass_one (files : List NoteFile) (t : String) :
    dictGet t (pass_one_index_uuids files) =
      ((files.filter (idxFilterPred t)).getLast?).bind (fun n => n.conceptKey) := by
  unfold pass_one_index_uuids
  induction files using List.reverseRecOn with
  | nil => simp [dictGet]
  | append_singleton l n ih =>
    rw [List.foldl_append, List.foldl_cons, List.foldl_nil, List.filter_append]
    rcases hc : n.conceptKey with _ | uuid
    · have hp : idxFilterPred t n = false := by simp [idxFilterPred, hc]
      simp only [idxStep_eq, hc, List.filter_cons, hp, Bool.false_eq_true, if_false,
        List.filter_nil, List.append_nil]
      exact ih
    · by_cases hu : uuid = ""
      · subst hu
        have hp : idxFilterPred t n = false := by simp [idxFilterPred, hc]
        have hu2 : ("" != "") = false := by decide
        simp only [idxStep_eq, hc, hu2, List.filter_cons, hp, Bool.false_eq_true, if_false,
          List.filter_nil, List.append_nil]
        exact ih
      · have hu2 : (uuid != "") = true := by simpa using hu
        by_cases hs : pyLower n.stem = t
        · have hp : idxFilterPred t n = true := by simp [idxFilterPred, hc, hu, hs]
          simp only [idxStep_eq, hc, hu2, if_true, List.filter_cons, hp,
            List.filter_nil, List.getLast?_concat, Option.some_bind, hc]
          rw [hs, dictGet_dictInsert, if_pos rfl]
        · have hp : idxFilterPred t n = false := by simp [idxFilterPred, hc, hs]
          simp only [idxStep_eq, hc, hu2, if_true, List.filter_cons, hp, Bool.false_eq_true,
            if_false, List.filter_nil, List.append_nil]
          rw [dictGet_dictInsert, if_neg (fun h => hs h.symm)]
          exact ih

/-- Claim C5 (amended).  After phase 1: every note with a truthy (non-empty)
identifier performs exactly one insertion keyed by its lower-cased title, so
the normalized title - not the identifier - appears as a key, exactly once
(keys are `Nodup`); and a lookup returns the identifier of the *last*-scanned
note with that normalized title (title collisions: last wins). -/
theorem link_index_structure (files : List NoteFile) :
    ((pass_one_index_uuids files).map Prod.fst).Nodup ∧
    (∀ n ∈ files, ∀ uuid, n.conceptKey = some uuid → uuid ≠ "" →
        pyLower n.stem ∈ (pass_one_index_uuids files).map Prod.fst) ∧
    (∀ t, dictGet t (pass_one_index_uuids files) =
        ((files.filter (idxFilterPred t)).getLast?).bind (fun n => n.conceptKey)) := by
  refine ⟨keys_nodup_foldl_idxStep files [] (by simp), ?_, fun t => dictGet_pass_one files t⟩
  intro n hn uuid hkey hne
  exact mem_keys_of_truthy_note files [] n hn uuid hkey hne

/-- Claim C5 counterexample.  The claim says the *identifier* appears exactly
once as a key of the Link Index; in fact the keys are lower-cased titles:
for a note `Grammar.md` with identifier `abc123` the index is
`{"grammar": "abc123"}` and `abc123` is not a key at all. -/
theorem identifier_not_a_key :
    pass_one_index_uuids [⟨"Grammar", some "abc123"⟩] = [("grammar", "abc123")] ∧
    "abc123" ∉ (pass_one_index_uuids [⟨"Grammar", some "abc123"⟩]).map Prod.fst := by
  refine ⟨by decide, by decide⟩

/-- Claim C5 witness: the amended theorem applied at concrete inputs - the
normalized title is a key, and on a title collision (`Grammar.md` vs
`GRAMMAR.md`) the last-scanned identifier wins. -/
theorem link_index_structure_witness :
    "grammar" ∈ (pass_one_index_uuids [⟨"Grammar", some "abc123"⟩]).map Prod.fst ∧
    dictGet "grammar" (pass_one_index_uuids [⟨"Grammar", some "g1"⟩, ⟨"GRAMMAR", some "g2"⟩])
      = some "g2" := by
  constructor
  · exact (link_index_structure [⟨"Grammar", some "abc123"⟩]).2.1
      ⟨"Grammar", some "abc123"⟩ (by simp) "abc123" rfl (by decide)
  · exact ((link_index_structure [⟨"Grammar", some "g1"⟩, ⟨"GRAMMAR", some "g2"⟩]).2.2
      "grammar").trans (by decide)

/-! ## C9: the scheme node's top-concept list -/

theorem scheme_foldl_acc (version : String) (cs : List ConceptData) :
    ∀ a b : List String,
      cs.foldl (schemeStep version) (a, b) =
        (a ++ (cs.filter fun c => topFlagSet c && pyTruthy c.conceptKey).map (topUri version),
         b ++ (cs.filter fun c => topFlagSet c && !pyTruthy c.conceptKey).map ConceptData.filename) := by
  induction cs with
  | nil => intro a b; simp
  | cons c cs ih =>
    intro a b
    simp only [List.foldl_cons, List.filter_cons]
    by_cases hf : topFlagSet c
    · by_cases hk : pyTruthy c.conceptKey
      · have hs : schemeStep version (a, b) c = (a ++ [topUri version c], b) := by
          simp [schemeStep, hf, hk]
        rw [hs, ih]
        simp [hf, hk]
      · have hs : schemeStep version (a, b) c = (a, b ++ [c.filename]) := by
          simp [schemeStep, hf, hk]
        rw [hs, ih]
        simp [hf, hk]
    · have hs : schemeStep version (a, b) c = (a, b) := by
        simp [schemeStep, hf]
      rw [hs, ih]
      simp [hf]

/-- Claim C9.  The scheme node's top-concept list contains exactly the notes
whose `top-concept` flag evaluates truthily and that carry a truthy
identifier; a note with the flag set but no truthy identifier is excluded
and its filename is warned about.  The final conjunct characterizes the
flag test: it accepts exactly the boolean `true` and any string whose
lower-casing is `"true"`. -/
theorem concept_scheme_top_concepts (version : String) (all_concepts : List ConceptData) :
    (generate_concept_scheme version all_concepts).1 =
      (all_concepts.filter fun c => topFlagSet c && pyTruthy c.conceptKey).map (topUri version) ∧
    (generate_concept_scheme version all_concepts).2 =
      (all_concepts.filter fun c => topFlagSet c && !pyTruthy c.conceptKey).map
        ConceptData.filename ∧
    (∀ v : PyVal, pyLower (pyValStr v) = "true" ↔
        (v = PyVal.pbool true ∨ ∃ s, v = PyVal.pstr s ∧ pyLower s = "true")) := by
  refine ⟨?_, ?_, ?_⟩
  · rw [generate_concept_scheme, scheme_foldl_acc version all_concepts [] []]
    simp
  · rw [generate_concept_scheme, scheme_foldl_acc version all_concepts [] []]
    simp
  · intro v
    cases v with
    | pnone => simp [pyValStr, pyLower]
    | pbool b => cases b <;> simp [pyValStr, pyLower]
    | pstr s => simp [pyValStr]

/-! ## C1 and C3: relation predicates and the alternative-label predicate -/

theorem skos_to_header_inverse (h p : String)
    (ha : HEADER_TO_SKOS h = some p) : SKOS_TO_HEADER p = some h := by
  unfold HEADER_TO_SKOS at ha
  split_ifs at ha <;> simp at ha <;> (try subst ha) <;> simp [SKOS_TO_HEADER, *]

theorem header_to_skos_inj (h1 h2 p : String)
    (ha : HEADER_TO_SKOS h1 = some p) (hb : HEADER_TO_SKOS h2 = some p) : h1 = h2 := by
  have i1 := skos_to_header_inverse h1 p ha
  have i2 := skos_to_header_inverse h2 p hb
  rw [i1] at i2
  exact Option.some.inj i2

theorem dictGet_skosStep_of_ne (idx : String → Option String) (p : String)
    (acc : List (String × JVal)) (hl : String × List String)
    (hne : ∀ q, HEADER_TO_SKOS hl.1 = some q → q ≠ p) :
    dictGet p (skosStep idx acc hl) = dictGet p acc := by
  rcases hm : HEADER_TO_SKOS hl.1 with _ | q
  · simp only [skosStep, hm]
  · have hq : ¬ p = q := fun h => (hne q hm) h.symm
    simp only [skosStep, hm]
    by_cases h0 : hl.2 = []
    · simp [h0]
    · simp only [h0, if_false]
      by_cases hrel : hl.1 ∈ ["Broader", "Narrower", "Related"]
      · simp only [hrel, if_pos]
        by_cases hu : hl.2.filterMap (relLineUri idx) = []
        · simp [hu]
        · simp only [hu, if_false, dictGet_dictInsert, hq]
      · simp only [hrel, if_false]
        by_cases halt : hl.1 = "Alternative Label"
        · simp [halt, dictGet_dictInsert, hq]
        · simp [halt, dictGet_dictInsert, hq]

theorem dictGet_foldl_skosStep_of_ne (idx : String → Option String) (p : String)
    (ss : List (String × List String)) :
    ∀ acc, (∀ hl ∈ ss, ∀ q, HEADER_TO_SKOS hl.1 = some q → q ≠ p) →
      dictGet p (ss.foldl (skosStep idx) acc) = dictGet p acc := by
  induction ss with
  | nil => intro acc _; rfl
  | cons hl ss ih =>
    intro acc hne
    simp only [List.foldl_cons]
    rw [ih (skosStep idx acc hl) (fun x hx => hne x (List.mem_cons_of_mem hl hx))]
    exact dictGet_skosStep_of_ne idx p acc hl (hne hl (List.mem_cons_self hl ss))

theorem dictGet_skosStep_congr (idx : String → Option String) (p : String)
    (acc1 acc2 : List (String × JVal)) (hl : String × List String)
    (h : dictGet p acc1 = dictGet p acc2) :
    dictGet p (skosStep idx acc1 hl) = dictGet p (skosStep idx acc2 hl) := by
  rcases hm : HEADER_TO_SKOS hl.1 with _ | q
  · simpa only [skosStep, hm] using h
  · simp only [skosStep, hm]
    by_cases h0 : hl.2 = []
    · simp [h0, h]
    · simp only [h0, if_false]
      by_cases hrel : hl.1 ∈ ["Broader", "Narrower", "Related"]
      · simp only [hrel, if_pos]
        by_cases hu : hl.2.filterMap (relLineUri idx) = []
        · simp [hu, h]
        · simp only [hu, if_false, dictGet_dictInsert, h]
      · simp only [hrel, if_false]
        by_cases halt : hl.1 = "Alternative Label"
        · simp [halt, dictGet_dictInsert, h]
        · simp [halt, dictGet_dictInsert, h]

theorem dictGet_generate_skos (idx : String → Option String) (uuid title : String)
    (sections : List (String × List String)) (h : String) (lines : List String) (p : String)
    (hmem : (h, lines) ∈ sections)
    (hnodup : (sections.map Prod.fst).Nodup)
    (hp : HEADER_TO_SKOS h = some p) :
    dictGet p (generate_skos_json idx uuid title sections) =
      dictGet p (skosStep idx (skosBase uuid title) (h, lines)) := by
  obtain ⟨pre, post, rfl⟩ := List.append_of_mem hmem
  unfold generate_skos_json
  rw [List.foldl_append, List.foldl_cons]
  have hkeys := hnodup
  rw [List.map_append, List.map_cons, List.nodup_append] at hkeys
  obtain ⟨hnp, hncons, hdisj⟩ := hkeys
  have hpre_ne : ∀ hl ∈ pre, ∀ q, HEADER_TO_SKOS hl.1 = some q → q ≠ p := by
    intro hl hmem2 q hq hqp
    subst hqp
    have heq : hl.1 = h := header_to_skos_inj _ _ _ hq hp
    have hhh : h ∈ pre.map Prod.fst := heq ▸ List.mem_map_of_mem Prod.fst hmem2
    exact (hdisj hhh) (List.mem_cons_self _ _)
  have hpost_ne : ∀ hl ∈ post, ∀ q, HEADER_TO_SKOS hl.1 = some q → q ≠ p := by
    intro hl hmem2 q hq hqp
    subst hqp
    have heq : hl.1 = h := header_to_skos_inj _ _ _ hq hp
    have hhh : h ∈ post.map Prod.fst := heq ▸ List.mem_map_of_mem Prod.fst hmem2
    rw [List.nodup_cons] at hncons
    exact hncons.1 hhh
  have hpreget : dictGet p (pre.foldl (skosStep idx) (skosBase uuid title))
      = dictGet p (skosBase uuid title) :=
    dictGet_foldl_skosStep_of_ne idx p pre (skosBase uuid title) hpre_ne
  rw [dictGet_foldl_skosStep_of_ne idx p post _ hpost_ne]
  exact dictGet_skosStep_congr idx p _ _ (h, lines) hpreget

/-- Claim C1.  For a relation section (`Broader`, `Narrower`, `Related`):
unresolvable lines are dropped silently (`filterMap`); the predicate is
absent when no line resolves, a scalar URI string when exactly one line
resolves, and a list of URI strings when two or more resolve. -/
theorem relation_predicate_cardinality (idx : String → Option String) (uuid title : String)
    (sections : List (String × List String)) (h : String) (lines : List String) (p : String)
    (hmem : (h, lines) ∈ sections)
    (hnodup : (sections.map Prod.fst).Nodup)
    (hrel : h = "Broader" ∨ h = "Narrower" ∨ h = "Related")
    (hp : HEADER_TO_SKOS h = some p) :
    dictGet p (generate_skos_json idx uuid title sections) =
      match lines.filterMap (relLineUri idx) with
      | [] => none
      | [u] => some (JVal.s u)
      | us => some (JVal.l us) := by
  rw [dictGet_generate_skos idx uuid title sections h lines p hmem hnodup hp]
  rcases hrel with h1 | h1 | h1 <;> subst h1 <;> simp only [HEADER_TO_SKOS] at hp <;>
    simp only [String.reduceEq, if_false, if_true, reduceIte, Option.some.injEq] at hp <;>
    subst hp
  all_goals (
    by_cases hl0 : lines = []
    · subst hl0
      simp [skosStep, HEADER_TO_SKOS, skosBase, dictGet]
    · rcases huris : lines.filterMap (relLineUri idx) with _ | ⟨u, _ | ⟨v, us⟩⟩ <;>
        simp [skosStep, HEADER_TO_SKOS, hl0, huris, skosBase, dictGet, dictGet_dictInsert])

/-- Claim C1 witness: with the index `x -> u1`, `y -> u2`, a `Broader` section
with lines `[[x]]`, `nosuch`, `y` drops the unresolvable line and emits a
two-element list; a section with only `[[x]]` emits a scalar. -/
theorem relation_predicate_cardinality_witness :
    dictGet "skos:broader"
        (generate_skos_json
          (fun s => if s = "x" then some "u1" else if s = "y" then some "u2" else none)
          "id0" "T" [("Broader", ["[[x]]", "nosuch", "y"])]) =
      some (JVal.l ["https://vernacular.cloud/0.0.1/u1/",
                    "https://vernacular.cloud/0.0.1/u2/"]) ∧
    dictGet "skos:broader"
        (generate_skos_json
          (fun s => if s = "x" then some "u1" else if s = "y" then some "u2" else none)
          "id0" "T" [("Broader", ["[[x]]"])]) =
      some (JVal.s "https://vernacular.cloud/0.0.1/u1/") := by
  constructor
  · exact (relation_predicate_cardinality _ "id0" "T" _ "Broader" ["[[x]]", "nosuch", "y"]
      "skos:broader" (by simp) (by decide) (Or.inl rfl) (by decide)).trans (by decide)
  · exact (relation_predicate_cardinality _ "id0" "T" _ "Broader" ["[[x]]"]
      "skos:broader" (by simp) (by decide) (Or.inl rfl) (by decide)).trans (by decide)

/-- Claim C3 (amended).  For an `Alternative Label` section the emitted
predicate is always a list, even with one line; each line is cleaned by
`line.lstrip('- ').strip()`, i.e. every leading `-` and space character is
removed - a `*` or `+` bullet marker is NOT stripped. -/
theorem altLabel_always_list (idx : String → Option String) (uuid title : String)
    (sections : List (String × List String)) (lines : List String)
    (hmem : ("Alternative Label", lines) ∈ sections)
    (hnodup : (sections.map Prod.fst).Nodup)
    (hne : lines ≠ []) :
    dictGet "skos:altLabel" (generate_skos_json idx uuid title sections) =
      some (JVal.l (lines.map altLabelClean)) := by
  rw [dictGet_generate_skos idx uuid title sections "Alternative Label" lines "skos:altLabel"
    hmem hnodup (by rfl)]
  simp [skosStep, HEADER_TO_SKOS, hne, dictGet_dictInsert]

/-- Claim C3 counterexample.  The claim says any leading bullet marker
(`-`, `*` or `+`) is stripped; the code only strips `-` and spaces
(`lstrip('- ')`), so a `*`-bulleted line keeps its marker: the emitted list
is `["* foo"]`, not the `["foo"]` the claim requires. -/
theorem altLabel_star_bullet_not_stripped :
    dictGet "skos:altLabel"
        (generate_skos_json sampleIndex "id0" "T" [("Alternative Label", ["* foo"])]) =
      some (JVal.l ["* foo"]) ∧
    specBulletStrip "* foo" = "foo" ∧
    JVal.l ["* foo"] ≠ JVal.l ["foo"] := by
  refine ⟨by decide, by decide, by decide⟩

/-- Claim C3 witness: a single `-`-bulleted line still emits a (one-element)
list, with the bullet and surrounding blanks removed. -/
theorem altLabel_always_list_witness :
    dictGet "skos:altLabel"
        (generate_skos_json sampleIndex "id0" "T" [("Alternative Label", ["- alpha"])]) =
      some (JVal.l ["alpha"]) := by
  exact (altLabel_always_list sampleIndex "id0" "T" [("Alternative Label", ["- alpha"])]
    ["- alpha"] (by simp) (by decide) (by decide)).trans (by decide)

/-! ## Scanner lemmas for the link passes -/

theorem splitOnFirst_single_not_mem (c : Char) (cs : List Char) (h : c ∉ cs) :
    splitOnFirst [c] cs = none := by
  induction cs with
  | nil => rfl
  | cons x rest ih =>
    have hcx : ¬ c = x := fun hh => h (hh ▸ List.mem_cons_self x rest)
    have hrest : c ∉ rest := fun hh => h (List.mem_cons_of_mem x hh)
    simp [splitOnFirst, isPrefixL, hcx, ih hrest]

theorem splitOnFirst_boundary (xs rest : List Char) (h : ']' ∉ xs) :
    splitOnFirst [']', ']'] (xs ++ ']' :: ']' :: rest) = some (xs, rest) := by
  induction xs with
  | nil => simp [splitOnFirst, isPrefixL]
  | cons x tail ih =>
    have hx : ¬ (']' : Char) = x := fun hh => h (hh.symm ▸ List.mem_cons_self x tail)
    have htail : ']' ∉ tail := fun hh => h (List.mem_cons_of_mem x hh)
    have hpre : isPrefixL [']', ']'] (x :: (tail ++ ']' :: ']' :: rest)) = false := by
      simp [isPrefixL, hx]
    simp [splitOnFirst, hpre, ih htail]

theorem wikiGo_nil (idx : String → Option String) (f : Nat) (hf : f ≠ 0) :
    wikiGo idx f [] = [] := by
  cases f with
  | zero => exact absurd rfl hf
  | succ f => rfl

theorem wikiScan_token (f : Nat) (xs : List Char) (hrb : ']' ∉ xs) (hnl : '\n' ∉ xs) :
    wikiScan (f + 1) ('[' :: '[' :: (xs ++ [']', ']'])) = some xs := by
  have hsplit : splitOnFirst [']', ']'] (xs ++ [']', ']']) = some (xs, []) := by
    simpa using splitOnFirst_boundary xs [] hrb
  have hcont : xs.contains '\n' = false := by simpa using hnl
  simp [wikiScan, isPrefixL, hsplit, hcont]
  intro hmem
  exact absurd hmem hnl

theorem token_data (t : String) :
    ("[[" ++ t ++ "]]").data = '[' :: '[' :: (t.data ++ [']', ']']) := by
  have h1 : ("[[" ++ t ++ "]]").data = "[[".data ++ (t.data ++ "]]".data) := by
    rw [String.data_append, String.data_append, List.append_assoc]
  exact h1.trans rfl

theorem token_length (t : String) : ("[[" ++ t ++ "]]").length = t.length + 4 := by
  rw [String.length_append, String.length_append]
  have h1 : ("[[" : String).length = 2 := rfl
  have h2 : ("]]" : String).length = 2 := rfl
  omega

theorem clean_link_text_token (t : String) (hrb : ']' ∉ t.data) (hnl : '\n' ∉ t.data) :
    clean_link_text ("[[" ++ t ++ "]]") = t := by
  unfold clean_link_text
  rw [token_length, token_data, wikiScan_token (t.length + 4) t.data hrb hnl]

theorem wikiPieces_token (idx : String → Option String) (t : String)
    (hrb : ']' ∉ t.data) (hnl : '\n' ∉ t.data) :
    wikiPieces idx ("[[" ++ t ++ "]]") =
      [WikiPiece.subst t.data (wiki_link_sub idx t).data (wikiHit idx t)] := by
  unfold wikiPieces
  rw [token_length, token_data]
  have hsplit : splitOnFirst [']', ']'] (t.data ++ [']', ']']) = some (t.data, []) := by
    simpa using splitOnFirst_boundary t.data [] hrb
  have hcont : t.data.contains '\n' = false := by simpa using hnl
  have hnil : wikiGo idx (t.length + 4) [] = [] := wikiGo_nil idx _ (by omega)
  simp [wikiGo, isPrefixL, hsplit, hcont, hnil]
  intro hmem
  exact absurd hmem hnl

theorem mdGo_no_bracket (f : Nat) :
    ∀ (prev : Option Char) (cs : List Char), '[' ∉ cs →
      ((mdGo f prev cs).map mdPieceStr).flatten = cs ∧
      ∀ p ∈ mdGo f prev cs, ∀ m l u, p ≠ MdPiece.rew m l u := by
  induction f with
  | zero =>
    intro prev cs _
    refine ⟨by simp [mdGo, mdPieceStr], ?_⟩
    intro p hp m l u
    simp only [mdGo, List.mem_singleton] at hp
    subst hp
    simp
  | succ f ih =>
    intro prev cs h
    cases cs with
    | nil => simp [mdGo]
    | cons c rest =>
      have hc : ¬ c = '[' := fun hh => h (hh ▸ List.mem_cons_self c rest)
      have hrest : '[' ∉ rest := fun hh => h (List.mem_cons_of_mem c hh)
      have hcond : (c = '[' && prev != some '!') = false := by simp [hc]
      obtain ⟨ih1, ih2⟩ := ih (some c) rest hrest
      constructor
      · simp [mdGo, hcond, mdPieceStr, ih1]
      · intro p hp m l u
        simp only [mdGo, hcond, Bool.false_eq_true, if_false, List.mem_cons] at hp
        rcases hp with h1 | h1
        · subst h1; simp
        · exact ih2 p h1 m l u

theorem isPrefixL_eq_append (p : List Char) :
    ∀ l : List Char, isPrefixL p l = true → l = p ++ l.drop p.length := by
  induction p with
  | nil => intro l _; simp
  | cons c p ih =>
    intro l h
    cases l with
    | nil => simp [isPrefixL] at h
    | cons x xs =>
      simp only [isPrefixL, Bool.and_eq_true, decide_eq_true_eq] at h
      obtain ⟨h1, h2⟩ := h
      subst h1
      simpa using ih xs h2

theorem splitOnFirst_eq_append (pat : List Char) :
    ∀ cs a b : List Char, splitOnFirst pat cs = some (a, b) → cs = a ++ pat ++ b := by
  intro cs
  induction cs with
  | nil => intro a b h; simp [splitOnFirst] at h
  | cons c rest ih =>
    intro a b h
    by_cases hp : isPrefixL pat (c :: rest) = true
    · simp only [splitOnFirst, hp, if_true, Option.some.injEq, Prod.mk.injEq] at h
      obtain ⟨ha, hb⟩ := h
      subst ha
      subst hb
      simpa using isPrefixL_eq_append pat (c :: rest) hp
    · simp only [splitOnFirst, hp, Bool.false_eq_true, if_false] at h
      rcases hrec : splitOnFirst pat rest with _ | ab
      · rw [hrec] at h
        simp at h
      · obtain ⟨a2, b2⟩ := ab
        rw [hrec] at h
        simp only [Option.some.injEq, Prod.mk.injEq] at h
        obtain ⟨ha, hb⟩ := h
        subst ha
        subst hb
        have hdec := ih a2 b2 hrec
        simp [hdec]

theorem wikiSplitBar_label_no_bracket (inner : String) (h : '[' ∉ inner.data) :
    '[' ∉ ((wikiSplitBar inner).2).data := by
  unfold wikiSplitBar
  rcases hs : splitOnFirst ['|'] inner.data with _ | ab
  · simp only [hs]
    exact h
  · obtain ⟨a, b⟩ := ab
    simp only [hs]
    have hdec := splitOnFirst_eq_append ['|'] inner.data a b hs
    intro hmem
    have hmem2 : '[' ∈ b := hmem
    apply h
    rw [hdec]
    exact List.mem_append.2 (Or.inr hmem2)

theorem mdSubst_no_bracket (s : String) (h : '[' ∉ s.data) :
    mdSubst s = s ∧ mdMatches s = [] := by
  obtain ⟨h1, h2⟩ := mdGo_no_bracket (s.length + 1) none s.data h
  constructor
  · unfold mdSubst mdPieces
    exact congrArg String.mk h1
  · unfold mdMatches mdPieces
    rw [List.filterMap_eq_nil_iff]
    intro p hp
    cases p with
    | lit cs => rfl
    | rew m l u => exact absurd rfl (h2 _ hp m l u)

/-! ## C4: cross-reference rendering on an index miss -/

/-- Claim C4.  For a cross-reference token `[[inner]]` (well-formed interior:
no `]`, `[` or newline; a `display|target` separator is allowed): the
display text defaults to the target text when no separator is present
(`wikiSplitBar inner = (inner, inner)`), and when the normalized target -
the part before the separator, or the whole interior without one - misses
the Link Index, the rendered output of `process_text_links` is exactly the
display text (`(wikiSplitBar inner).2`): no anchor markup, no error. -/
theorem crossref_miss_renders_display (idx : String → Option String) (inner : String)
    (hrb : ']' ∉ inner.data) (hnl : '\n' ∉ inner.data) (hlb : '[' ∉ inner.data)
    (hmiss : idx (pyLower (pyStrip (wikiSplitBar inner).1)) = none) :
    ('|' ∉ inner.data → wikiSplitBar inner = (inner, inner)) ∧
    wiki_link_sub idx inner = (wikiSplitBar inner).2 ∧
    process_text_links idx ("[[" ++ inner ++ "]]") = (wikiSplitBar inner).2 := by
  have hsub : wiki_link_sub idx inner = (wikiSplitBar inner).2 := by
    simp only [wiki_link_sub, hmiss]
  refine ⟨?_, hsub, ?_⟩
  · intro hbar
    unfold wikiSplitBar
    rw [splitOnFirst_single_not_mem '|' inner.data hbar]
  · have hw : wikiSubst idx ("[[" ++ inner ++ "]]") = (wikiSplitBar inner).2 := by
      unfold wikiSubst
      rw [wikiPieces_token idx inner hrb hnl]
      simp [wikiPieceStr, hsub]
    unfold process_text_links
    rw [hw]
    exact (mdSubst_no_bracket _ (wikiSplitBar_label_no_bracket inner hlb)).1

/-- Claim C4 witness: `[[nosuch]]` misses the sample index and renders as the
bare display text `nosuch`; the labeled token `[[nosuch|Display Text]]`
misses on target `nosuch` and renders as its display text. -/
theorem crossref_miss_renders_display_witness :
    process_text_links sampleIndex "[[nosuch]]" = "nosuch" ∧
    process_text_links sampleIndex "[[nosuch|Display Text]]" = "Display Text" := by
  constructor
  · exact (crossref_miss_renders_display sampleIndex "nosuch" (by decide) (by decide)
      (by decide) (by decide)).2.2.trans (by decide)
  · exact (crossref_miss_renders_display sampleIndex "nosuch|Display Text" (by decide)
      (by decide) (by decide) (by decide)).2.2.trans (by decide)

/-! ## C6: substitution order and re-matching -/

/-- Claim C6 counterexample.  The claim says no anchor produced by the
cross-reference pass is matched and rewritten again by the external-link
pass.  On `[x]([[t]])` with `t -> u` in the index, the first pass inserts an
internal anchor, and the second pass then matches the whole region
`[x](<a ...>t</a>)` - a region containing that anchor - and rewrites it into
an external link whose URL is the internal anchor. -/
theorem external_pass_rematches_internal_anchor :
    wikiAnchors sampleIndex "[x]([[t]])" =
      ["<a href=\"/0.0.1/u/\" class=\"internal-link\">t</a>"] ∧
    mdMatches (wikiSubst sampleIndex "[x]([[t]])") =
      ["[x](<a href=\"/0.0.1/u/\" class=\"internal-link\">t</a>)"] ∧
    containsSub "<a href=\"/0.0.1/u/\" class=\"internal-link\">t</a>".data
      "[x](<a href=\"/0.0.1/u/\" class=\"internal-link\">t</a>)".data = true ∧
    process_text_links sampleIndex "[x]([[t]])" =
      md_link_sub "x" "<a href=\"/0.0.1/u/\" class=\"internal-link\">t</a>" := by
  refine ⟨by decide, by decide, by decide, by decide⟩

/-- Claim C6 (amended).  Cross-reference substitution runs before
external-link substitution (`process_text_links` is their composition in
that order), and whenever the first pass's output contains no `[` the
external-link pass matches nothing, so nothing the first pass produced is
re-matched; with bracket syntax enclosing a wiki token in the input,
re-matching can occur (see the counterexample). -/
theorem substitution_order_and_bracket_free (idx : String → Option String) (text : String) :
    process_text_links idx text = mdSubst (wikiSubst idx text) ∧
    ('[' ∉ (wikiSubst idx text).data →
       mdMatches (wikiSubst idx text) = [] ∧
       process_text_links idx text = wikiSubst idx text) := by
  refine ⟨rfl, fun h => ?_⟩
  obtain ⟨h1, h2⟩ := mdSubst_no_bracket (wikiSubst idx text) h
  exact ⟨h2, h1⟩

/-- Claim C6 witness: on `hello [[t]]` the first pass's output is
bracket-free, the second pass matches nothing, and the composition equals
the first pass alone. -/
theorem substitution_order_and_bracket_free_witness :
    process_text_links sampleIndex "hello [[t]]" = wikiSubst sampleIndex "hello [[t]]" ∧
    mdMatches (wikiSubst sampleIndex "hello [[t]]") = [] := by
  have h := (substitution_order_and_bracket_free sampleIndex "hello [[t]]").2 (by decide)
  exact ⟨h.2, h.1⟩

/-! ## C10: the lookup key of a relation line -/

/-- Claim C10.  A relation line with no `[[...]]` token is resolved by the
whole trimmed line, lower-cased (`clean_link_text` falls back to
`text.strip()`); a double-bracketed line is resolved by the entire bracket
interior - including any text after a `|` separator - lower-cased. -/
theorem relation_line_lookup_key (idx : String → Option String) (line t : String) :
    (wikiScan (line.length + 1) line.data = none →
       clean_link_text line = pyStrip line ∧
       relLineUri idx line = (idx (pyLower (pyStrip line))).map
         (fun target_uuid => DOMAIN ++ "/" ++ VERSION ++ "/" ++ target_uuid ++ "/")) ∧
    (']' ∉ t.data → '\n' ∉ t.data →
       clean_link_text ("[[" ++ t ++ "]]") = t ∧
       relLineUri idx ("[[" ++ t ++ "]]") = (idx (pyLower t)).map
         (fun target_uuid => DOMAIN ++ "/" ++ VERSION ++ "/" ++ target_uuid ++ "/")) := by
  constructor
  · intro hscan
    have hclean : clean_link_text line = pyStrip line := by
      unfold clean_link_text
      rw [hscan]
    exact ⟨hclean, by unfold relLineUri; rw [hclean]⟩
  · intro hrb hnl
    have hclean := clean_link_text_token t hrb hnl
    exact ⟨hclean, by unfold relLineUri; rw [hclean]⟩

/-- Claim C10 witness: the bare line `" t "` and the token line `"[[t]]"`
resolve to the same URI through the sample index; a `|` interior is looked
up whole (and misses). -/
theorem relation_line_lookup_key_witness :
    relLineUri sampleIndex " t " = some "https://vernacular.cloud/0.0.1/u/" ∧
    relLineUri sampleIndex "[[t]]" = some "https://vernacular.cloud/0.0.1/u/" ∧
    relLineUri sampleIndex "[[t|label]]" = none := by
  refine ⟨?_, ?_, ?_⟩
  · exact ((relation_line_lookup_key sampleIndex " t " "t").1 (by decide)).2.trans (by decide)
  · exact ((relation_line_lookup_key sampleIndex "x" "t").2 (by decide) (by decide)).2.trans
      (by decide)
  · exact ((relation_line_lookup_key sampleIndex "x" "t|label").2 (by decide)
      (by decide)).2.trans (by decide)

/-! ## C7: the section parser -/

theorem dictAppend_dictInsert (h x : String) (v : List String)
    (secs : List (String × List String)) :
    dictAppend h x (dictInsert h v secs) = dictInsert h (v ++ [x]) secs := by
  induction secs with
  | nil => simp [dictInsert, dictAppend]
  | cons hd tl ih =>
    obtain ⟨k2, v2⟩ := hd
    by_cases h1 : k2 = h
    · subst h1; simp [dictInsert, dictAppend]
    · simp [dictInsert, dictAppend, h1, ih]

theorem appendAll_nil (h : String) (secs : List (String × List String)) :
    appendAll h [] secs = secs := rfl

theorem appendAll_cons (h x : String) (xs : List String) (secs : List (String × List String)) :
    appendAll h (x :: xs) secs = appendAll h xs (dictAppend h x secs) := rfl

theorem appendAll_dictInsert (h : String) (xs : List String)
    (secs : List (String × List String)) :
    ∀ v, appendAll h xs (dictInsert h v secs) = dictInsert h (v ++ xs) secs := by
  induction xs with
  | nil => intro v; simp [appendAll_nil]
  | cons x xs ih =>
    intro v
    rw [appendAll_cons, dictAppend_dictInsert, ih (v ++ [x])]
    simp

theorem specSegments_nil : specSegments [] = [] := by
  rw [specSegments]

theorem specSegments_cons_header (l : String) (ls : List String) (h : String)
    (hm : headerMatch l = some h) :
    specSegments (l :: ls) =
      (h, if h = "" then [] else keptLines (ls.takeWhile noHeader))
        :: specSegments (ls.dropWhile noHeader) := by
  rw [specSegments, hm]

theorem specSegments_cons_other (l : String) (ls : List String)
    (hm : headerMatch l = none) :
    specSegments (l :: ls) = specSegments ls := by
  rw [specSegments, hm]

theorem parseGo_spec (ls : List String) :
    (∀ secs, parseGo ls none secs =
        (specSegments ls).foldl (fun d hb => dictInsert hb.1 hb.2 d) secs) ∧
    (∀ h secs, parseGo ls (some h) secs =
        (specSegments (ls.dropWhile noHeader)).foldl (fun d hb => dictInsert hb.1 hb.2 d)
          (appendAll h (if h = "" then [] else keptLines (ls.takeWhile noHeader)) secs)) := by
  induction ls with
  | nil =>
    constructor
    · intro secs
      simp [parseGo, specSegments_nil]
    · intro h secs
      have hbody : (if h = "" then [] else keptLines ([] : List String)) = ([] : List String) := by
        split <;> rfl
      simp [parseGo, specSegments_nil, hbody, appendAll_nil]
  | cons l ls ih =>
    obtain ⟨ih1, ih2⟩ := ih
    constructor
    · intro secs
      rcases hm : headerMatch l with _ | h2
      · simp only [parseGo, hm]
        rw [specSegments_cons_other l ls hm]
        exact ih1 secs
      · simp only [parseGo, hm]
        rw [specSegments_cons_header l ls h2 hm, List.foldl_cons,
          ih2 h2 (dictInsert h2 [] secs), appendAll_dictInsert]
        simp
    · intro h secs
      rcases hm : headerMatch l with _ | h2
      · have hnh : noHeader l = true := by simp [noHeader, hm]
        rw [List.takeWhile_cons, List.dropWhile_cons]
        simp only [hnh, if_true]
        by_cases hE : h = ""
        · subst hE
          simp only [parseGo, hm, if_pos rfl]
          have hthis := ih2 "" secs
          simp only [if_pos rfl, appendAll_nil] at hthis ⊢
          exact hthis
        · rw [if_neg hE]
          simp only [parseGo, hm]
          rw [if_neg hE]
          by_cases hblank : pyStrip l = ""
          · have hkept : keptLines (l :: ls.takeWhile noHeader)
                = keptLines (ls.takeWhile noHeader) := by
              simp [keptLines, hblank]
            rw [if_pos hblank, hkept, ih2 h secs, if_neg hE]
          · have hkept : keptLines (l :: ls.takeWhile noHeader)
                = pyStrip l :: keptLines (ls.takeWhile noHeader) := by
              simp [keptLines, hblank]
            rw [if_neg hblank, hkept, appendAll_cons,
              ih2 h (dictAppend h (pyStrip l) secs), if_neg hE]
      · have hnh : noHeader l = false := by simp [noHeader, hm]
        rw [List.takeWhile_cons, List.dropWhile_cons]
        simp only [hnh, Bool.false_eq_true, if_false]
        have hbody : (if h = "" then [] else keptLines ([] : List String)) = ([] : List String) := by
          split <;> rfl
        rw [hbody, appendAll_nil, specSegments_cons_header l ls h2 hm, List.foldl_cons]
        simp only [parseGo, hm]
        rw [ih2 h2 (dictInsert h2 [] secs), appendAll_dictInsert]
        simp

/-- Claim C7 (amended).  The section parser returns an insertion-ordered
mapping from trimmed single-level heading text to the non-blank lines of
the last section with that heading - each stored line additionally trimmed
(the amendment) - up to the next single-level heading; lines before any
heading are discarded; a heading whose text strips to empty still creates
its entry but its following lines are discarded (the empty current-header
string is falsy in Python); a repeated heading keeps its first position but
its last body (last-wins, via `dictInsert` over the segments). -/
theorem parse_sections_refines_spec (content : String) :
    parse_sections content = specParseSections content := by
  unfold parse_sections specParseSections
  exact (parseGo_spec (pySplitNl content)).1 []

/-- Claim C7 counterexample.  The claim stores "the ordered list of non-blank
lines following that heading"; the code stores those lines *trimmed*: under
`# H` the non-blank line `"  x "` is stored as `"x"`.  Moreover, under a
heading whose text strips to empty (`"# "`), the code discards the
following non-blank line entirely (the empty current-header string is falsy
in Python), where the claim would store it. -/
theorem parse_sections_stores_trimmed_lines :
    parse_sections "# H\n  x " = [("H", ["x"])] ∧
    ((pySplitNl "# H\n  x ").drop 1).filter (fun l => pyStrip l != "") = ["  x "] ∧
    (["x"] : List String) ≠ ["  x "] ∧
    parse_sections "# \nx" = [("", [])] := by
  refine ⟨by decide, by decide, by decide, by decide⟩

/-! ## C8: bullet-run grouping in the section renderer -/

theorem specRender_nil (idx : String → Option String) : specRender idx [] = [] := by
  rw [specRender]

theorem specRender_cons_bullet (idx : String → Option String) (e : LineElem)
    (es : List LineElem) (h : isBulletElem e = true) :
    specRender idx (e :: es) =
      ("<ul>" :: ((e :: es).takeWhile isBulletElem).map (itemHtml idx))
        ++ "</ul>" :: specRender idx ((e :: es).dropWhile isBulletElem) := by
  rw [specRender]
  simp [h]

theorem specRender_cons_other (idx : String → Option String) (e : LineElem)
    (es : List LineElem) (h : isBulletElem e = false) :
    specRender idx (e :: es) = itemHtml idx e :: specRender idx es := by
  rw [specRender]
  simp [h]

theorem renderGo_spec (idx : String → Option String) (lines : List String) :
    (renderGo idx lines false = specRender idx (sectionElems lines)) ∧
    (renderGo idx lines true =
       ((sectionElems lines).takeWhile isBulletElem).map (itemHtml idx)
         ++ "</ul>" :: specRender idx ((sectionElems lines).dropWhile isBulletElem)) := by
  induction lines with
  | nil =>
    constructor
    · simp [renderGo, sectionElems, specRender_nil]
    · simp [renderGo, sectionElems, specRender_nil]
  | cons line rest ih =>
    obtain ⟨ih1, ih2⟩ := ih
    by_cases hblank : pyStrip line = ""
    · have hse : sectionElems (line :: rest) = sectionElems rest := by
        simp [sectionElems, hblank]
      constructor
      · simp only [renderGo, hblank, if_pos rfl, hse]
        exact ih1
      · simp only [renderGo, hblank, if_pos rfl, hse]
        exact ih2
    · have hse : sectionElems (line :: rest)
          = classifyStripped (pyStrip line) :: sectionElems rest := by
        simp [sectionElems, hblank]
      rcases hb : bulletMatch (pyStrip line) with _ | c
      · by_cases hsh : (pyStrip line).startsWith "##"
        · have hcl : classifyStripped (pyStrip line)
              = LineElem.subhead (pyStrip (pyLstripSet ['#'] (pyStrip line))) := by
            simp [classifyStripped, hb, hsh]
          have hnb : isBulletElem (classifyStripped (pyStrip line)) = false := by
            rw [hcl]; rfl
          constructor
          · simp only [renderGo, hblank, if_false, hb, hsh, if_true, hse]
            rw [specRender_cons_other idx _ _ hnb, hcl, ih1]
            rfl
          · simp only [renderGo, hblank, if_false, hb, hsh, if_true, hse]
            rw [List.takeWhile_cons, List.dropWhile_cons]
            simp only [hnb, Bool.false_eq_true, if_false, List.map_nil, List.nil_append]
            rw [specRender_cons_other idx _ _ hnb, hcl, ih1]
            rfl
        · have hcl : classifyStripped (pyStrip line) = LineElem.para (pyStrip line) := by
            simp [classifyStripped, hb, hsh]
          have hnb : isBulletElem (classifyStripped (pyStrip line)) = false := by
            rw [hcl]; rfl
          constructor
          · simp only [renderGo, hblank, if_false, hb, hsh, hse]
            rw [specRender_cons_other idx _ _ hnb, hcl, ih1]
            rfl
          · simp only [renderGo, hblank, if_false, hb, hsh, hse]
            rw [List.takeWhile_cons, List.dropWhile_cons]
            simp only [hnb, Bool.false_eq_true, if_false, List.map_nil, List.nil_append]
            rw [specRender_cons_other idx _ _ hnb, hcl, ih1]
            rfl
      · have hcl : classifyStripped (pyStrip line) = LineElem.bullet c := by
          simp [classifyStripped, hb]
        have hyb : isBulletElem (classifyStripped (pyStrip line)) = true := by
          rw [hcl]; rfl
        constructor
        · simp only [renderGo, hblank, if_false, hb, hse]
          rw [specRender_cons_bullet idx _ _ hyb, List.takeWhile_cons, List.dropWhile_cons]
          simp only [hyb, if_true, List.map_cons, hcl]
          rw [ih2]
          rfl
        · simp only [renderGo, hblank, if_false, hb, hse]
          rw [List.takeWhile_cons, List.dropWhile_cons]
          simp only [hyb, if_true, List.map_cons, hcl]
          rw [ih2]
          rfl

/-- Claim C8.  Rendering a section groups each maximal run of consecutive
bullet-classified (non-blank) lines into exactly one `<ul>` container with
one `<li>` per line in input order, opened at the first bullet line and
closed immediately before the next non-bullet element or at the end of
input; sub-heading and paragraph lines render on their own. -/
theorem render_section_groups_bullet_runs (idx : String → Option String)
    (lines : List String) :
    render_section_to_html idx lines =
      String.intercalate "\n" (specRender idx (sectionElems lines)) := by
  unfold render_section_to_html
  rw [(renderGo_spec idx lines).1]

end O2J
